import Mathlib

/-!
Shallow embedding of the bid-acceptance and auction-lifecycle engine of the
real-time auction system.  Monetary amounts are integers (the source uses JS
numbers; every comparison the engine performs is order-theoretic, so a fixed
sub-unit scaling such as cents loses nothing), timestamps are integers
(milliseconds); ISO-string comparisons in the source compare identically to
the numeric timestamps they encode.  Each definition mirrors one source function:

* `supaPlaceBid`, `endAuction`, `decision`, `counterReply`, `startAuction`,
  `resetAuction` mirror the Supabase REST repository
  (`apps/server/src/supaRepo.ts`).
* `seqPlaceBid` mirrors the Sequelize branch of the
  `POST /api/auctions/:id/bids` handler in the server entry point, including
  its advisory Redis price-cache consultation.
* `tryPlaceBid` mirrors `RedisStore.tryPlaceBid` in `apps/server/src/store.ts`.
* `indexSweepInstalled` / `part000SweepInstalled` mirror the guards under which
  the periodic expiry sweep `setInterval` is installed in the TypeScript entry
  point and in the compiled server bundle respectively.

Storage failures of the two Supabase writes inside `placeBid` (the conditional
price update and the bid insert) are injected through the boolean parameters
`updateFails` / `insertFails`; all other storage calls in the modelled paths
have their errors swallowed by the source.
-/

inductive Status
  | scheduled
  | live
  | ended
  | closed
deriving DecidableEq, Repr

structure Auction where
  id : Nat
  sellerId : Nat
  startingPrice : ℤ
  bidIncrement : ℤ
  goLiveAt : ℤ
  endsAt : ℤ
  currentPrice : ℤ
  status : Status
deriving DecidableEq, Repr

structure Bid where
  id : Nat
  auctionId : Nat
  bidderId : Nat
  amount : ℤ
  createdAt : ℤ
deriving DecidableEq, Repr

inductive NotifyType
  | bidNew
  | bidOutbid
  | bidUpdate
  | auctionEnded
  | offerAccepted
  | offerRejected
  | offerCounter
deriving DecidableEq, Repr

structure Notification where
  userId : Nat
  ntype : NotifyType
  amount : Option ℤ
deriving DecidableEq, Repr

inductive CounterStatus
  | pending
  | accepted
  | rejected
deriving DecidableEq, Repr

structure CounterOffer where
  id : Nat
  auctionId : Nat
  sellerId : Nat
  buyerId : Nat
  amount : ℤ
  status : CounterStatus
deriving DecidableEq, Repr

/-- State of the Supabase document store restricted to one auction: the
auction row (if present), its bid rows, the counter-offer rows and the
notification rows, each in insertion order. -/
structure SupaState where
  auction : Option Auction
  bids : List Bid
  counters : List CounterOffer
  notifications : List Notification
deriving DecidableEq, Repr

/-- Stable insertion of a bid into a list sorted by amount in descending
order; models the `order by amount desc` of the store. -/
def insertBidDesc (b : Bid) : List Bid → List Bid
  | [] => [b]
  | c :: cs => if b.amount ≤ c.amount then c :: insertBidDesc b cs else b :: c :: cs

/-- Sort bids by amount, highest first; models `order('amount', desc)`. -/
def sortBidsDesc : List Bid → List Bid
  | [] => []
  | b :: bs => insertBidDesc b (sortBidsDesc bs)

/-- First-occurrence deduplication, as produced by `Array.from(new Set(xs))`. -/
def uniqueFirstAux (seen : List Nat) : List Nat → List Nat
  | [] => []
  | x :: xs => if x ∈ seen then uniqueFirstAux seen xs else x :: uniqueFirstAux (x :: seen) xs

def uniqueFirst (xs : List Nat) : List Nat := uniqueFirstAux [] xs

/-- Highest-amount bid, as returned by `order('amount', desc).limit(1)`. -/
def topBid (bs : List Bid) : Option Bid := (sortBidsDesc bs).head?

inductive SupaBidResult
  | missing
  | ended
  | updateError
  | tooLowOrEnded
  | insertError
  | success
deriving DecidableEq, Repr

/-- Embedding of `placeBid` in `supaRepo.ts`.  The conditional update
`update({currentPrice: amount}).lte('currentPrice', amount - step)
.gt('endsAt', nowIso).neq('status','closed')` either fails (`updateFails`),
matches zero rows (the 409 `Bid too low or auction ended` rejection), or
applies; the subsequent bid insert may fail (`insertFails`), in which case the
function returns a 500 with the price already updated.  On full success the
seller `bid:new` notice, the top-two-based `bid:outbid` notice and the capped
`bid:update` fan-out are recorded. -/
def supaPlaceBid (s : SupaState) (now : ℤ) (bidderId : Nat) (amount : ℤ)
    (bidId : Nat) (updateFails insertFails : Bool) : SupaBidResult × SupaState :=
  match s.auction with
  | none => (.missing, s)
  | some a =>
    if a.status = .closed ∨ now > a.endsAt then (.ended, s)
    else if updateFails then (.updateError, s)
    else if a.currentPrice ≤ amount - a.bidIncrement ∧ now < a.endsAt ∧ a.status ≠ .closed then
      let a2 : Auction := { a with currentPrice := amount }
      let s2 : SupaState := { s with auction := some a2 }
      if insertFails then (.insertError, s2)
      else
        let newBid : Bid := ⟨bidId, a.id, bidderId, amount, now⟩
        let s3 : SupaState := { s2 with bids := s2.bids ++ [newBid] }
        let s4 : SupaState :=
          { s3 with notifications := s3.notifications ++ [⟨a.sellerId, .bidNew, some amount⟩] }
        let top2 := (sortBidsDesc s3.bids).take 2
        let s5 : SupaState :=
          match top2.find? (fun b => b.bidderId != bidderId) with
          | some p =>
            { s4 with notifications := s4.notifications ++ [⟨p.bidderId, .bidOutbid, some amount⟩] }
          | none => s4
        let others :=
          (uniqueFirst ((s3.bids.filter (fun b => b.bidderId != bidderId)).map Bid.bidderId)).take 100
        let s6 : SupaState :=
          { s5 with notifications :=
              s5.notifications ++ others.map (fun uid => ⟨uid, .bidUpdate, some amount⟩) }
        (.success, s6)
    else (.tooLowOrEnded, s)

inductive EndResult
  | missing
  | notSeller
  | ok
deriving DecidableEq, Repr

/-- Embedding of `endAuction` in `supaRepo.ts`. -/
def endAuction (s : SupaState) (sellerId : Nat) : EndResult × SupaState :=
  match s.auction with
  | none => (.missing, s)
  | some a =>
    if a.sellerId ≠ sellerId then (.notSeller, s)
    else
      (.ok, { s with auction := some { a with status := .ended },
                     notifications := s.notifications ++ [⟨sellerId, .auctionEnded, some a.currentPrice⟩] })

inductive DecisionAction
  | accept
  | reject
  | counter
deriving DecidableEq, Repr

inductive DecisionResult
  | missing
  | notSeller
  | noBids
  | badRequest
  | ok
deriving DecidableEq, Repr

/-- Embedding of `decision` in `supaRepo.ts`.  Note the source checks seller
identity and the existence of a top bid, but never the auction status. -/
def decision (s : SupaState) (sellerId : Nat) (action : DecisionAction)
    (amount : Option ℤ) (counterId : Nat) : DecisionResult × SupaState :=
  match s.auction with
  | none => (.missing, s)
  | some a =>
    if a.sellerId ≠ sellerId then (.notSeller, s)
    else
      match topBid s.bids with
      | none => (.noBids, s)
      | some tb =>
        match action with
        | .accept =>
          (.ok, { s with auction := some { a with status := .closed },
                         notifications := s.notifications ++ [⟨tb.bidderId, .offerAccepted, some tb.amount⟩] })
        | .reject =>
          (.ok, { s with auction := some { a with status := .closed },
                         notifications := s.notifications ++ [⟨tb.bidderId, .offerRejected, none⟩] })
        | .counter =>
          match amount with
          | none => (.badRequest, s)
          | some amt =>
            if amt = 0 then (.badRequest, s)
            else
              (.ok, { s with counters := s.counters ++ [⟨counterId, a.id, sellerId, tb.bidderId, amt, .pending⟩],
                             notifications := s.notifications ++ [⟨tb.bidderId, .offerCounter, some amt⟩] })

inductive ReplyResult
  | missing
  | notBuyer
  | auctionMissing
  | ok
deriving DecidableEq, Repr

/-- Embedding of `counterReply` in `supaRepo.ts`.  The source checks only the
addressed buyer; it never checks that the counter-offer is still pending. -/
def counterReply (s : SupaState) (counterId userId : Nat) (accept : Bool) : ReplyResult × SupaState :=
  match s.counters.find? (fun c => c.id == counterId) with
  | none => (.missing, s)
  | some c =>
    if c.buyerId ≠ userId then (.notBuyer, s)
    else
      match s.auction with
      | none => (.auctionMissing, s)
      | some a =>
        if a.id ≠ c.auctionId then (.auctionMissing, s)
        else if accept then
          (.ok, { s with
            counters := s.counters.map (fun x => if x.id = counterId then { x with status := .accepted } else x),
            auction := some { a with currentPrice := c.amount, status := .closed },
            notifications := s.notifications ++
              [⟨c.buyerId, .offerAccepted, some c.amount⟩, ⟨a.sellerId, .offerAccepted, some c.amount⟩] })
        else
          (.ok, { s with
            counters := s.counters.map (fun x => if x.id = counterId then { x with status := .rejected } else x),
            auction := some { a with status := .closed },
            notifications := s.notifications ++ [⟨c.buyerId, .offerRejected, none⟩] })

/-- Embedding of `startAuction` in `supaRepo.ts` (the route layer performs the
seller check). -/
def startAuction (s : SupaState) (now : ℤ) (minutes : ℤ) : SupaState :=
  match s.auction with
  | none => s
  | some a =>
    { s with auction := some { a with goLiveAt := now, endsAt := now + minutes * 60000, status := .live } }

/-- Embedding of `resetAuction` in `supaRepo.ts`. -/
def resetAuction (s : SupaState) (now : ℤ) (minutes : ℤ) : SupaState :=
  match s.auction with
  | none => s
  | some a =>
    { s with auction := some { a with currentPrice := a.startingPrice, goLiveAt := now,
                                      endsAt := now + minutes * 60000, status := .scheduled } }

/-- Advisory Redis price-cache hash for one auction, as read by
`redis.hgetall('auction:' + id)`: each field may be absent. -/
structure CacheMeta where
  current : Option ℤ
  step : Option ℤ
  endsAtC : Option ℤ
deriving DecidableEq, Repr

/-- State of the Sequelize backend restricted to one auction, together with
the optional Redis cache entry for it. -/
structure SeqState where
  hasRedis : Bool
  cache : Option CacheMeta
  auction : Option Auction
  bids : List Bid
  notifications : List Notification
deriving DecidableEq, Repr

inductive SeqBidResult
  | missing
  | ended
  | tooLow
  | success
deriving DecidableEq, Repr

/-- Latest-created bid, as returned by `findOne(order createdAt desc)`; on a
tie the later row of the list wins. -/
def pickLatest : List Bid → Option Bid
  | [] => none
  | b :: bs =>
    match pickLatest bs with
    | none => some b
    | some m => if b.createdAt > m.createdAt then some b else some m

/-- Cache consultation of the Sequelize bid handler: start from the row's
values, override each of `current`, `step`, `endsAt` with the cache field when
present, and seed the cache when its `endsAt` field is missing. -/
def consultCache (s : SeqState) (current0 step0 : ℤ) (endsAt0 : ℤ) :
    ℤ × ℤ × ℤ × SeqState :=
  if s.hasRedis then
    match s.cache with
    | some m =>
      let current := m.current.getD current0
      let step := m.step.getD step0
      match m.endsAtC with
      | some e => (current, step, e, s)
      | none => (current, step, endsAt0, { s with cache := some ⟨some current, some step, some endsAt0⟩ })
    | none => (current0, step0, endsAt0, { s with cache := some ⟨some current0, some step0, some endsAt0⟩ })
  else (current0, step0, endsAt0, s)

/-- Merge an updated `current` field into the cache hash, as
`hset('auction:' + id, {current: amount})` does. -/
def cacheSetCurrent (c : Option CacheMeta) (amount : ℤ) : Option CacheMeta :=
  match c with
  | some m => some { m with current := some amount }
  | none => some ⟨some amount, none, none⟩

/-- Embedding of the Sequelize branch of the `POST /api/auctions/:id/bids`
handler: validate against the (possibly cached) price and increment, reject
`Ended` when the current time is strictly after the cached or stored `endsAt`,
reject `TooLow` below `current + step`, otherwise write `currentPrice`
unconditionally, insert the bid, refresh the cache, and notify the bidder of
the latest-created bid if that bidder differs from the current one. -/
def seqPlaceBid (s : SeqState) (now : ℤ) (bidderId : Nat) (amount : ℤ)
    (bidId : Nat) : SeqBidResult × SeqState :=
  match s.auction with
  | none => (.missing, s)
  | some row =>
    match consultCache s row.currentPrice row.bidIncrement row.endsAt with
    | (current, step, endsAtIso, s0) =>
      if now > endsAtIso ∨ now > row.endsAt then (.ended, s0)
      else if amount < current + step then (.tooLow, s0)
      else
        let row2 : Auction := { row with currentPrice := amount }
        let newBid : Bid := ⟨bidId, row.id, bidderId, amount, now⟩
        let s1 : SeqState := { s0 with auction := some row2, bids := s0.bids ++ [newBid] }
        let s2 : SeqState :=
          if s1.hasRedis then { s1 with cache := cacheSetCurrent s1.cache amount } else s1
        let s3 : SeqState :=
          match pickLatest s2.bids with
          | some lb =>
            if lb.bidderId ≠ bidderId then
              { s2 with notifications := s2.notifications ++ [⟨lb.bidderId, .bidOutbid, some amount⟩] }
            else s2
          | none => s2
        (.success, s3)

/-- Auction hash of the key-value (`RedisStore`) backend. -/
structure RedisAuction where
  startingPrice : ℤ
  currentPrice : ℤ
  endsAt : ℤ
deriving DecidableEq, Repr

/-- Key-value store state for one auction: the advisory lock key
`lock:auction:<id>` (with its remaining TTL when held) and the auction hash. -/
structure RedisState where
  lockHeld : Bool
  lockTtl : Option Nat
  auction : Option RedisAuction
deriving DecidableEq, Repr

/-- The `set(lockKey, userId, {nx: true, ex: 5})` acquisition: fails when the
key already exists, otherwise creates it with a five-second expiry. -/
def lockAcquire (s : RedisState) : Option RedisState :=
  if s.lockHeld then none
  else some { s with lockHeld := true, lockTtl := some 5 }

/-- The `del(lockKey)` of the `finally` block. -/
def lockRelease (s : RedisState) : RedisState :=
  { s with lockHeld := false, lockTtl := none }

inductive TryBidResult
  | locked
  | missing
  | ended
  | low
  | ok
deriving DecidableEq, Repr

/-- Embedding of `RedisStore.tryPlaceBid` in `store.ts`: acquire the advisory
lock before reading the hash, bail with `locked` when acquisition fails, and
release the lock in the `finally` block on every other path. -/
def tryPlaceBid (s : RedisState) (now : ℤ) (amount : ℤ) : TryBidResult × RedisState :=
  match lockAcquire s with
  | none => (.locked, s)
  | some s1 =>
    match s1.auction with
    | none => (.missing, lockRelease s1)
    | some r =>
      if now > r.endsAt then (.ended, lockRelease s1)
      else if amount ≤ r.currentPrice then (.low, lockRelease s1)
      else (.ok, lockRelease { s1 with auction := some { r with currentPrice := amount } })

/-- Guard under which the TypeScript entry point installs the periodic expiry
sweep: `if (sequelize && !USE_SUPABASE_REST)`. -/
def indexSweepInstalled (hasSequelize useSupabaseRest : Bool) : Bool :=
  hasSequelize && !useSupabaseRest

/-- Guard under which the compiled server bundle installs the periodic expiry
sweep: `if (sequelize)` — the Supabase REST flag is not consulted. -/
def part000SweepInstalled (hasSequelize : Bool) (_useSupabaseRest : Bool) : Bool :=
  hasSequelize

/-- One pass of the expiry sweep body over the (single-auction) relational
store: a `live` auction whose `endsAt` has passed is set to `ended` and an
`auction:ended` notification for its seller is recorded. -/
def seqSweep (s : SeqState) (now : ℤ) : SeqState :=
  match s.auction with
  | none => s
  | some r =>
    if r.status = .live ∧ r.endsAt ≤ now then
      { s with auction := some { r with status := .ended },
               notifications := s.notifications ++ [⟨r.sellerId, .auctionEnded, some r.currentPrice⟩] }
    else s

/-- The operations the Supabase REST repository exposes on one auction. -/
inductive SupaOp
  | placeBidOp (now : ℤ) (bidderId : Nat) (amount : ℤ) (bidId : Nat) (updateFails insertFails : Bool)
  | endAuctionOp (sellerId : Nat)
  | decisionOp (sellerId : Nat) (action : DecisionAction) (amount : Option ℤ) (counterId : Nat)
  | counterReplyOp (counterId userId : Nat) (accept : Bool)
  | startOp (now : ℤ) (minutes : ℤ)
  | resetOp (now : ℤ) (minutes : ℤ)
deriving DecidableEq, Repr

/-- Effect of one Supabase REST operation on the store state. -/
def applyOp : SupaOp → SupaState → SupaState
  | .placeBidOp now bidderId amount bidId updF insF, s => (supaPlaceBid s now bidderId amount bidId updF insF).2
  | .endAuctionOp sellerId, s => (endAuction s sellerId).2
  | .decisionOp sellerId action amount counterId, s => (decision s sellerId action amount counterId).2
  | .counterReplyOp counterId userId accept, s => (counterReply s counterId userId accept).2
  | .startOp now minutes, s => startAuction s now minutes
  | .resetOp now minutes, s => resetAuction s now minutes

/-!
Branch characterizations of the two `placeBid` paths and small list lemmas
used across the claim proofs.
-/

theorem supaPlaceBid_ended (s : SupaState) (a : Auction) (now : ℤ) (bidderId : Nat)
    (amount : ℤ) (bidId : Nat) (updF insF : Bool) (hs : s.auction = some a)
    (h : a.status = .closed ∨ now > a.endsAt) :
    supaPlaceBid s now bidderId amount bidId updF insF = (.ended, s) := by
  simp only [supaPlaceBid, hs, if_pos h]

theorem supaPlaceBid_reject (s : SupaState) (a : Auction) (now : ℤ) (bidderId : Nat)
    (amount : ℤ) (bidId : Nat) (insF : Bool) (hs : s.auction = some a)
    (h : ¬(a.status = .closed ∨ now > a.endsAt))
    (hc : ¬(a.currentPrice ≤ amount - a.bidIncrement ∧ now < a.endsAt ∧ a.status ≠ .closed)) :
    supaPlaceBid s now bidderId amount bidId false insF = (.tooLowOrEnded, s) := by
  simp [supaPlaceBid, hs, if_neg h, if_neg hc]

theorem supaPlaceBid_updateError (s : SupaState) (a : Auction) (now : ℤ) (bidderId : Nat)
    (amount : ℤ) (bidId : Nat) (insF : Bool) (hs : s.auction = some a)
    (h : ¬(a.status = .closed ∨ now > a.endsAt)) :
    supaPlaceBid s now bidderId amount bidId true insF = (.updateError, s) := by
  simp [supaPlaceBid, hs, if_neg h]

theorem supaPlaceBid_insertError (s : SupaState) (a : Auction) (now : ℤ) (bidderId : Nat)
    (amount : ℤ) (bidId : Nat) (hs : s.auction = some a)
    (h : ¬(a.status = .closed ∨ now > a.endsAt))
    (hc : a.currentPrice ≤ amount - a.bidIncrement ∧ now < a.endsAt ∧ a.status ≠ .closed) :
    supaPlaceBid s now bidderId amount bidId false true =
      (.insertError, { s with auction := some { a with currentPrice := amount } }) := by
  simp [supaPlaceBid, hs, if_neg h, if_pos hc]

theorem supaPlaceBid_success (s : SupaState) (a : Auction) (now : ℤ) (bidderId : Nat)
    (amount : ℤ) (bidId : Nat) (hs : s.auction = some a)
    (h : ¬(a.status = .closed ∨ now > a.endsAt))
    (hc : a.currentPrice ≤ amount - a.bidIncrement ∧ now < a.endsAt ∧ a.status ≠ .closed) :
    (supaPlaceBid s now bidderId amount bidId false false).1 = .success ∧
    (supaPlaceBid s now bidderId amount bidId false false).2.auction =
      some { a with currentPrice := amount } ∧
    (supaPlaceBid s now bidderId amount bidId false false).2.bids =
      s.bids ++ [⟨bidId, a.id, bidderId, amount, now⟩] := by
  simp only [supaPlaceBid, hs, if_neg h, Bool.false_eq_true, if_false, if_pos hc]
  cases hfind : (sortBidsDesc (s.bids ++ [⟨bidId, a.id, bidderId, amount, now⟩])).take 2
      |>.find? (fun b => b.bidderId != bidderId) <;>
    simp [hfind]

theorem mem_insertBidDesc {x b : Bid} {l : List Bid} :
    x ∈ insertBidDesc b l ↔ x = b ∨ x ∈ l := by
  induction l with
  | nil => simp [insertBidDesc]
  | cons c cs ih =>
    simp only [insertBidDesc]
    split <;> simp only [List.mem_cons, ih] <;> tauto

theorem mem_sortBidsDesc {x : Bid} {l : List Bid} :
    x ∈ sortBidsDesc l ↔ x ∈ l := by
  induction l with
  | nil => simp [sortBidsDesc]
  | cons c cs ih =>
    simp [sortBidsDesc, mem_insertBidDesc, ih]

theorem pickLatest_append_newest (l : List Bid) (b : Bid)
    (h : ∀ x ∈ l, x.createdAt < b.createdAt) : pickLatest (l ++ [b]) = some b := by
  induction l with
  | nil => simp [pickLatest]
  | cons c cs ih =>
    have hc := h c (by simp)
    have ih2 := ih (fun x hx => h x (by simp [hx]))
    simp only [List.cons_append, pickLatest, List.append_eq, ih2]
    rw [if_neg (by omega)]

theorem consultCache_noRedis (t : SeqState) (c st : ℤ) (e : ℤ) (h : t.hasRedis = false) :
    consultCache t c st e = (c, st, e, t) := by
  simp [consultCache, h]

theorem seqPlaceBid_noRedis_ended (t : SeqState) (r : Auction) (now : ℤ) (bidderId : Nat)
    (amount : ℤ) (bidId : Nat) (ht : t.auction = some r) (hnr : t.hasRedis = false)
    (h : now > r.endsAt) :
    seqPlaceBid t now bidderId amount bidId = (.ended, t) := by
  simp [seqPlaceBid, ht, consultCache_noRedis t _ _ _ hnr, h]

theorem seqPlaceBid_noRedis_tooLow (t : SeqState) (r : Auction) (now : ℤ) (bidderId : Nat)
    (amount : ℤ) (bidId : Nat) (ht : t.auction = some r) (hnr : t.hasRedis = false)
    (h : ¬now > r.endsAt) (hlow : amount < r.currentPrice + r.bidIncrement) :
    seqPlaceBid t now bidderId amount bidId = (.tooLow, t) := by
  simp [seqPlaceBid, ht, consultCache_noRedis t _ _ _ hnr, h, hlow]

theorem seqPlaceBid_noRedis_success (t : SeqState) (r : Auction) (now : ℤ) (bidderId : Nat)
    (amount : ℤ) (bidId : Nat) (ht : t.auction = some r) (hnr : t.hasRedis = false)
    (h : ¬now > r.endsAt) (hge : r.currentPrice + r.bidIncrement ≤ amount) :
    (seqPlaceBid t now bidderId amount bidId).1 = .success ∧
    (seqPlaceBid t now bidderId amount bidId).2.auction =
      some { r with currentPrice := amount } ∧
    (seqPlaceBid t now bidderId amount bidId).2.bids =
      t.bids ++ [⟨bidId, r.id, bidderId, amount, now⟩] := by
  have hlow : ¬amount < r.currentPrice + r.bidIncrement := not_lt.2 hge
  simp only [seqPlaceBid, ht, consultCache_noRedis t _ _ _ hnr]
  simp only [or_self, if_neg h, if_neg hlow, hnr, Bool.false_eq_true, if_false]
  cases hpl : pickLatest (t.bids ++ [⟨bidId, r.id, bidderId, amount, now⟩]) with
  | none => simp [hpl, hnr]
  | some lb =>
    by_cases hb : lb.bidderId = bidderId <;> simp [hpl, hnr, hb]

/-- Cache consultation when the hash has every field present: the cached
values are used verbatim and no seeding occurs. -/
theorem consultCache_full (t : SeqState) (c st : ℤ) (e : ℤ) (cur0 st0 : ℤ) (e0 : ℤ)
    (hr : t.hasRedis = true) (hc : t.cache = some ⟨some c, some st, some e⟩) :
    consultCache t cur0 st0 e0 = (c, st, e, t) := by
  simp [consultCache, hr, hc]

theorem seqPlaceBid_cached_tooLow (t : SeqState) (r : Auction) (c st : ℤ) (e : ℤ)
    (now : ℤ) (bidderId : Nat) (amount : ℤ) (bidId : Nat)
    (ht : t.auction = some r) (hr : t.hasRedis = true)
    (hc : t.cache = some ⟨some c, some st, some e⟩)
    (hend : ¬(now > e ∨ now > r.endsAt)) (hlow : amount < c + st) :
    seqPlaceBid t now bidderId amount bidId = (.tooLow, t) := by
  simp [seqPlaceBid, ht, consultCache_full t c st e _ _ _ hr hc, hend, hlow]

theorem seqPlaceBid_cached_success (t : SeqState) (r : Auction) (c st : ℤ) (e : ℤ)
    (now : ℤ) (bidderId : Nat) (amount : ℤ) (bidId : Nat)
    (ht : t.auction = some r) (hr : t.hasRedis = true)
    (hc : t.cache = some ⟨some c, some st, some e⟩)
    (hend : ¬(now > e ∨ now > r.endsAt)) (hge : c + st ≤ amount) :
    (seqPlaceBid t now bidderId amount bidId).1 = .success := by
  have hlow : ¬amount < c + st := not_lt.2 hge
  simp only [seqPlaceBid, ht, consultCache_full t c st e _ _ _ hr hc]
  rw [if_neg hend, if_neg hlow]


/-- C1 counterexample: the claim that every error return of `placeBid` leaves
`currentPrice` and the bid set unchanged is false.  On a live auction with
`currentPrice = 100`, `bidIncrement = 5`, a bid of 105 whose conditional price
update applies but whose bid insert then fails returns a storage error (HTTP
500) with the price already raised to 105 and no Bid recorded. -/
theorem C1_counterexample :
    (supaPlaceBid ⟨some ⟨1, 10, 100, 5, 0, 1000, 100, .live⟩, [], [], []⟩
        900 2 105 7 false true).1 = .insertError ∧
    (supaPlaceBid ⟨some ⟨1, 10, 100, 5, 0, 1000, 100, .live⟩, [], [], []⟩
        900 2 105 7 false true).2.auction = some ⟨1, 10, 100, 5, 0, 1000, 105, .live⟩ ∧
    (supaPlaceBid ⟨some ⟨1, 10, 100, 5, 0, 1000, 100, .live⟩, [], [], []⟩
        900 2 105 7 false true).2.bids = [] := by
  decide

/-- C1 amended: `placeBid` is all-or-nothing on every path except the
bid-insert failure after a successful conditional update: success yields both
the price update to the bid amount and a Bid record with that amount; every
error other than the insert-stage storage error leaves the store unchanged;
the insert-stage storage error leaves the price updated with no Bid
recorded. -/
theorem C1_amended_atomicity (s : SupaState) (a : Auction) (now : ℤ) (bidderId : Nat)
    (amount : ℤ) (bidId : Nat) (updF insF : Bool) (hs : s.auction = some a) :
    ((supaPlaceBid s now bidderId amount bidId updF insF).1 = .success →
      (supaPlaceBid s now bidderId amount bidId updF insF).2.auction =
        some { a with currentPrice := amount } ∧
      (supaPlaceBid s now bidderId amount bidId updF insF).2.bids =
        s.bids ++ [⟨bidId, a.id, bidderId, amount, now⟩]) ∧
    ((supaPlaceBid s now bidderId amount bidId updF insF).1 ≠ .success →
      (supaPlaceBid s now bidderId amount bidId updF insF).1 ≠ .insertError →
      (supaPlaceBid s now bidderId amount bidId updF insF).2 = s) ∧
    ((supaPlaceBid s now bidderId amount bidId updF insF).1 = .insertError →
      (supaPlaceBid s now bidderId amount bidId updF insF).2.auction =
        some { a with currentPrice := amount } ∧
      (supaPlaceBid s now bidderId amount bidId updF insF).2.bids = s.bids) := by
  by_cases hend : a.status = .closed ∨ now > a.endsAt
  · rw [supaPlaceBid_ended s a now bidderId amount bidId updF insF hs hend]
    simp
  · cases updF with
    | true =>
      rw [supaPlaceBid_updateError s a now bidderId amount bidId insF hs hend]
      simp
    | false =>
      by_cases hc : a.currentPrice ≤ amount - a.bidIncrement ∧ now < a.endsAt ∧ a.status ≠ .closed
      · cases insF with
        | true =>
          rw [supaPlaceBid_insertError s a now bidderId amount bidId hs hend hc]
          simp
        | false =>
          obtain ⟨h1, h2, h3⟩ := supaPlaceBid_success s a now bidderId amount bidId hs hend hc
          refine ⟨fun _ => ⟨h2, h3⟩, fun hne _ => absurd h1 hne, fun hie => ?_⟩
          rw [h1] at hie
          exact absurd hie (by decide)
      · rw [supaPlaceBid_reject s a now bidderId amount bidId insF hs hend hc]
        simp

/-- C1 amended, witnessed at a concrete input: a fully successful bid of 105
on the 100/5 live auction records both the new price and the matching Bid. -/
theorem C1_amended_witness :
    (supaPlaceBid ⟨some ⟨1, 10, 100, 5, 0, 1000, 100, .live⟩, [], [], []⟩
        900 2 105 7 false false).2.auction = some ⟨1, 10, 100, 5, 0, 1000, 105, .live⟩ ∧
    (supaPlaceBid ⟨some ⟨1, 10, 100, 5, 0, 1000, 100, .live⟩, [], [], []⟩
        900 2 105 7 false false).2.bids = [⟨7, 1, 2, 105, 900⟩] := by
  have h := (C1_amended_atomicity ⟨some ⟨1, 10, 100, 5, 0, 1000, 100, .live⟩, [], [], []⟩
    ⟨1, 10, 100, 5, 0, 1000, 100, .live⟩ 900 2 105 7 false false rfl).1 (by decide)
  exact ⟨h.1, h.2⟩

/-- After `placeBid` the stored auction is either untouched or has exactly its
`currentPrice` raised to the bid amount, the latter only when the conditional
update's price guard held. -/
theorem supaPlaceBid_auction_cases (s : SupaState) (a : Auction) (now : ℤ) (bidderId : Nat)
    (amount : ℤ) (bidId : Nat) (updF insF : Bool) (hs : s.auction = some a) :
    (supaPlaceBid s now bidderId amount bidId updF insF).2.auction = some a ∨
    ((supaPlaceBid s now bidderId amount bidId updF insF).2.auction =
        some { a with currentPrice := amount } ∧
      a.currentPrice ≤ amount - a.bidIncrement) := by
  by_cases hend : a.status = .closed ∨ now > a.endsAt
  · rw [supaPlaceBid_ended s a now bidderId amount bidId updF insF hs hend]
    exact Or.inl hs
  · cases updF with
    | true =>
      rw [supaPlaceBid_updateError s a now bidderId amount bidId insF hs hend]
      exact Or.inl hs
    | false =>
      by_cases hc : a.currentPrice ≤ amount - a.bidIncrement ∧ now < a.endsAt ∧ a.status ≠ .closed
      · cases insF with
        | true =>
          rw [supaPlaceBid_insertError s a now bidderId amount bidId hs hend hc]
          exact Or.inr ⟨rfl, hc.1⟩
        | false =>
          exact Or.inr ⟨(supaPlaceBid_success s a now bidderId amount bidId hs hend hc).2.1, hc.1⟩
      · rw [supaPlaceBid_reject s a now bidderId amount bidId insF hs hend hc]
        exact Or.inl hs

/-- C2 counterexample: in the Sequelize bid path a stale, lower advisory cache
value is not re-validated against the stored row at commit time.  With the
stored `currentPrice = 200` but a stale cached price of 100 (step 5), a bid of
105 is accepted and lowers the stored `currentPrice` from 200 to 105. -/
theorem C2_counterexample :
    (seqPlaceBid ⟨true, some ⟨some 100, some 5, some 1000⟩,
        some ⟨1, 10, 90, 5, 0, 1000, 200, .live⟩, [], []⟩ 900 2 105 7).1 = .success ∧
    (seqPlaceBid ⟨true, some ⟨some 100, some 5, some 1000⟩,
        some ⟨1, 10, 90, 5, 0, 1000, 200, .live⟩, [], []⟩ 900 2 105 7).2.auction =
      some ⟨1, 10, 90, 5, 0, 1000, 105, .live⟩ ∧
    (105 : ℤ) < 200 := by
  decide

/-- C2 amended: the accepted-bid price sequence is non-decreasing in the
Supabase path, whose conditional update re-validates the price at commit time,
and in the Sequelize path when no advisory cache is consulted; a stale lower
cache value in the Sequelize path can lower the committed price, because the
row update there is unconditional. -/
theorem C2_amended_monotonic (s : SupaState) (a : Auction) (t : SeqState) (r : Auction)
    (now : ℤ) (bidderId : Nat) (amount : ℤ) (bidId : Nat) (updF insF : Bool)
    (hs : s.auction = some a) (hinc : 0 ≤ a.bidIncrement)
    (ht : t.auction = some r) (hnr : t.hasRedis = false) (hrinc : 0 ≤ r.bidIncrement) :
    (∀ a2 : Auction, (supaPlaceBid s now bidderId amount bidId updF insF).2.auction = some a2 →
      a.currentPrice ≤ a2.currentPrice) ∧
    (∀ r2 : Auction, (seqPlaceBid t now bidderId amount bidId).2.auction = some r2 →
      r.currentPrice ≤ r2.currentPrice) := by
  constructor
  · intro a2 h2
    rcases supaPlaceBid_auction_cases s a now bidderId amount bidId updF insF hs with hcase | ⟨hcase, hle⟩
    · rw [hcase] at h2
      cases h2
      exact le_refl _
    · rw [hcase] at h2
      cases h2
      simp only []
      omega
  · intro r2 h2
    by_cases hend : now > r.endsAt
    · rw [seqPlaceBid_noRedis_ended t r now bidderId amount bidId ht hnr hend] at h2
      rw [ht] at h2
      cases h2
      exact le_refl _
    · by_cases hlow : amount < r.currentPrice + r.bidIncrement
      · rw [seqPlaceBid_noRedis_tooLow t r now bidderId amount bidId ht hnr hend hlow] at h2
        rw [ht] at h2
        cases h2
        exact le_refl _
      · have := (seqPlaceBid_noRedis_success t r now bidderId amount bidId ht hnr hend
          (by omega)).2.1
        rw [this] at h2
        cases h2
        simp only []
        omega

/-- C2 amended, witnessed: a bid of 105 against stored price 100, step 5,
with no cache consulted, commits the auction row at 105, not lowering the
prior price of 100. -/
theorem C2_amended_witness :
    (100 : ℤ) ≤ (Auction.mk 1 10 100 5 0 1000 105 .live).currentPrice := by
  exact (C2_amended_monotonic ⟨some ⟨1, 10, 100, 5, 0, 1000, 100, .live⟩, [], [], []⟩
    ⟨1, 10, 100, 5, 0, 1000, 100, .live⟩
    ⟨false, none, some ⟨1, 10, 100, 5, 0, 1000, 100, .live⟩, [], []⟩
    ⟨1, 10, 100, 5, 0, 1000, 100, .live⟩ 900 2 105 7 false false rfl (by decide) rfl rfl
    (by decide)).2 ⟨1, 10, 100, 5, 0, 1000, 105, .live⟩ (by decide)

/-- C8 counterexample: accepting a counter-offer below the starting price
drops `currentPrice` under `startingPrice`.  On an ended auction with
`startingPrice = 100` and a pending counter-offer of 50 addressed to buyer 2,
the buyer's accept closes the auction at `currentPrice = 50 < 100`. -/
theorem C8_counterexample :
    (counterReply ⟨some ⟨1, 10, 100, 5, 0, 1000, 200, .ended⟩, [⟨3, 1, 2, 200, 50⟩],
        [⟨5, 1, 10, 2, 50, .pending⟩], []⟩ 5 2 true).1 = .ok ∧
    (counterReply ⟨some ⟨1, 10, 100, 5, 0, 1000, 200, .ended⟩, [⟨3, 1, 2, 200, 50⟩],
        [⟨5, 1, 10, 2, 50, .pending⟩], []⟩ 5 2 true).2.auction =
      some ⟨1, 10, 100, 5, 0, 1000, 50, .closed⟩ ∧
    (50 : ℤ) < 100 := by
  decide

/-- C8 amended: bid acceptance preserves the floor `startingPrice ≤
currentPrice` (with a non-negative increment), but counter-offer acceptance
sets `currentPrice` to the counter amount unconditionally, which may be below
`startingPrice`. -/
theorem C8_amended_floor (s : SupaState) (a : Auction) (now : ℤ) (bidderId : Nat)
    (amount : ℤ) (bidId : Nat) (updF insF : Bool) (hs : s.auction = some a)
    (hfloor : a.startingPrice ≤ a.currentPrice) (hinc : 0 ≤ a.bidIncrement) :
    ∀ a2 : Auction, (supaPlaceBid s now bidderId amount bidId updF insF).2.auction = some a2 →
      a2.startingPrice ≤ a2.currentPrice := by
  intro a2 h2
  rcases supaPlaceBid_auction_cases s a now bidderId amount bidId updF insF hs with hcase | ⟨hcase, hle⟩
  · rw [hcase] at h2
    cases h2
    exact hfloor
  · rw [hcase] at h2
    cases h2
    simp only []
    omega

/-- C8 amended, witnessed: a successful bid of 105 on the 100/5 auction keeps
the committed auction row at or above the starting price. -/
theorem C8_amended_witness :
    (Auction.mk 1 10 100 5 0 1000 105 .live).startingPrice ≤
      (Auction.mk 1 10 100 5 0 1000 105 .live).currentPrice := by
  exact C8_amended_floor ⟨some ⟨1, 10, 100, 5, 0, 1000, 100, .live⟩, [], [], []⟩
    ⟨1, 10, 100, 5, 0, 1000, 100, .live⟩ 900 2 105 7 false false rfl (by decide) (by decide)
    ⟨1, 10, 100, 5, 0, 1000, 105, .live⟩ (by decide)

/-- C4 counterexample: the claim that within the window every amount strictly
below `currentPrice + bidIncrement` is rejected as `TooLow` fails in the
cached Sequelize path: against a live auction well inside its window with the
stored row at `currentPrice = 300`, `bidIncrement = 5`, but a stale cached
price of 100 (step 5), a bid of 110 — far below the stored `300 + 5` — is
accepted. -/
theorem C4_counterexample :
    (seqPlaceBid ⟨true, some ⟨some 100, some 5, some 1000⟩,
        some ⟨1, 10, 90, 5, 0, 1000, 300, .live⟩, [], []⟩ 900 2 110 7).1 = .success ∧
    (110 : ℤ) < 300 + 5 := by
  decide

/-- C4 amended: the acceptance threshold is `current + step` as consulted at
validation time.  In the Supabase path that threshold is the stored row's
`currentPrice + bidIncrement`, re-validated by the conditional update, so
within the window exactly the threshold (or more) is accepted and any smaller
amount is rejected as the combined 409 `Bid too low or auction ended`
conflict.  The Sequelize path applies the same boundary — with the 409
`Bid too low` conflict — to the values it consulted: the stored row's when no
cache is present, otherwise the cached `current` and `step`, which may be
stale and differ from the stored row's. -/
theorem C4_increment_boundary (s : SupaState) (a : Auction) (t : SeqState) (r : Auction)
    (u : SeqState) (q : Auction) (c stp : ℤ) (e : ℤ)
    (now : ℤ) (bidderId : Nat) (amount : ℤ) (bidId : Nat)
    (hs : s.auction = some a) (hcl : a.status ≠ .closed) (hlt : now < a.endsAt)
    (ht : t.auction = some r) (hnr : t.hasRedis = false) (htl : ¬now > r.endsAt)
    (hu : u.auction = some q) (hur : u.hasRedis = true)
    (huc : u.cache = some ⟨some c, some stp, some e⟩)
    (hue : ¬(now > e ∨ now > q.endsAt)) :
    (a.currentPrice + a.bidIncrement ≤ amount →
      (supaPlaceBid s now bidderId amount bidId false false).1 = .success) ∧
    (amount < a.currentPrice + a.bidIncrement →
      (supaPlaceBid s now bidderId amount bidId false false).1 = .tooLowOrEnded) ∧
    (r.currentPrice + r.bidIncrement ≤ amount →
      (seqPlaceBid t now bidderId amount bidId).1 = .success) ∧
    (amount < r.currentPrice + r.bidIncrement →
      (seqPlaceBid t now bidderId amount bidId).1 = .tooLow) ∧
    (c + stp ≤ amount →
      (seqPlaceBid u now bidderId amount bidId).1 = .success) ∧
    (amount < c + stp →
      seqPlaceBid u now bidderId amount bidId = (.tooLow, u)) := by
  have hend : ¬(a.status = .closed ∨ now > a.endsAt) := by simp [hcl]; omega
  refine ⟨fun hge => (supaPlaceBid_success s a now bidderId amount bidId hs hend
      ⟨by omega, hlt, hcl⟩).1,
    fun hlow => ?_, 
    fun hge => (seqPlaceBid_noRedis_success t r now bidderId amount bidId ht hnr htl hge).1,
    fun hlow => by rw [seqPlaceBid_noRedis_tooLow t r now bidderId amount bidId ht hnr htl hlow],
    fun hge => seqPlaceBid_cached_success u q c stp e now bidderId amount bidId hu hur huc hue hge,
    fun hlow => seqPlaceBid_cached_tooLow u q c stp e now bidderId amount bidId hu hur huc hue hlow⟩
  rw [supaPlaceBid_reject s a now bidderId amount bidId false hs hend (by omega)]

/-- C4 amended, witnessed: on the 100/5 auction 105 is accepted and 104
rejected too-low in the Supabase and uncached Sequelize paths; in the cached
Sequelize path with stale cache 100/5 over a stored price of 300, the cached
threshold 105 is accepted and 104 rejected. -/
theorem C4_increment_boundary_witness :
    (supaPlaceBid ⟨some ⟨1, 10, 100, 5, 0, 1000, 100, .live⟩, [], [], []⟩
        900 2 105 7 false false).1 = .success ∧
    (supaPlaceBid ⟨some ⟨1, 10, 100, 5, 0, 1000, 100, .live⟩, [], [], []⟩
        900 2 104 7 false false).1 = .tooLowOrEnded ∧
    (seqPlaceBid ⟨false, none, some ⟨1, 10, 100, 5, 0, 1000, 100, .live⟩, [], []⟩
        900 2 105 7).1 = .success ∧
    (seqPlaceBid ⟨false, none, some ⟨1, 10, 100, 5, 0, 1000, 100, .live⟩, [], []⟩
        900 2 104 7).1 = .tooLow ∧
    (seqPlaceBid ⟨true, some ⟨some 100, some 5, some 1000⟩,
        some ⟨1, 10, 90, 5, 0, 1000, 300, .live⟩, [], []⟩ 900 2 105 7).1 = .success ∧
    seqPlaceBid ⟨true, some ⟨some 100, some 5, some 1000⟩,
        some ⟨1, 10, 90, 5, 0, 1000, 300, .live⟩, [], []⟩ 900 2 104 7 =
      (.tooLow, ⟨true, some ⟨some 100, some 5, some 1000⟩,
        some ⟨1, 10, 90, 5, 0, 1000, 300, .live⟩, [], []⟩) := by
  have h105 := C4_increment_boundary ⟨some ⟨1, 10, 100, 5, 0, 1000, 100, .live⟩, [], [], []⟩
    ⟨1, 10, 100, 5, 0, 1000, 100, .live⟩
    ⟨false, none, some ⟨1, 10, 100, 5, 0, 1000, 100, .live⟩, [], []⟩
    ⟨1, 10, 100, 5, 0, 1000, 100, .live⟩
    ⟨true, some ⟨some 100, some 5, some 1000⟩, some ⟨1, 10, 90, 5, 0, 1000, 300, .live⟩, [], []⟩
    ⟨1, 10, 90, 5, 0, 1000, 300, .live⟩ 100 5 1000 900 2 105 7
    rfl (by decide) (by decide) rfl rfl (by decide) rfl rfl rfl (by decide)
  have h104 := C4_increment_boundary ⟨some ⟨1, 10, 100, 5, 0, 1000, 100, .live⟩, [], [], []⟩
    ⟨1, 10, 100, 5, 0, 1000, 100, .live⟩
    ⟨false, none, some ⟨1, 10, 100, 5, 0, 1000, 100, .live⟩, [], []⟩
    ⟨1, 10, 100, 5, 0, 1000, 100, .live⟩
    ⟨true, some ⟨some 100, some 5, some 1000⟩, some ⟨1, 10, 90, 5, 0, 1000, 300, .live⟩, [], []⟩
    ⟨1, 10, 90, 5, 0, 1000, 300, .live⟩ 100 5 1000 900 2 104 7
    rfl (by decide) (by decide) rfl rfl (by decide) rfl rfl rfl (by decide)
  exact ⟨h105.1 (by decide), h104.2.1 (by decide), h105.2.2.1 (by decide),
    h104.2.2.2.1 (by decide), h105.2.2.2.2.1 (by decide), h104.2.2.2.2.2 (by decide)⟩

/-- C5 counterexample: the decision handler never checks auction status.  On
an already-closed auction with one bid, a subsequent `decision(reject)`
returns success (200), not a Conflict, and appends a fresh notification. -/
theorem C5_counterexample :
    (decision ⟨some ⟨1, 10, 100, 5, 0, 1000, 200, .closed⟩, [⟨3, 1, 2, 200, 50⟩], [], []⟩
        10 .reject none 99).1 = .ok ∧
    (decision ⟨some ⟨1, 10, 100, 5, 0, 1000, 200, .closed⟩, [⟨3, 1, 2, 200, 50⟩], [], []⟩
        10 .reject none 99).2.notifications = [⟨2, .offerRejected, none⟩] := by
  decide

/-- C5 amended: an accept or reject decision by the seller on any auction with
at least one bid succeeds regardless of the auction's current status —
including an already-closed one — re-writing `status = closed`, leaving
`currentPrice` unchanged and appending exactly one notification; the only
Conflict the handler produces is `No bids`. -/
theorem C5_amended_decision (s : SupaState) (a : Auction) (tb : Bid) (sellerId : Nat)
    (action : DecisionAction) (counterId : Nat) (hs : s.auction = some a)
    (hsel : a.sellerId = sellerId) (htb : topBid s.bids = some tb)
    (hact : action ≠ .counter) :
    (decision s sellerId action none counterId).1 = .ok ∧
    (decision s sellerId action none counterId).2.auction =
      some { a with status := .closed } ∧
    (∃ n : Notification,
      (decision s sellerId action none counterId).2.notifications = s.notifications ++ [n]) ∧
    ((decision s sellerId action none counterId).1 = .noBids ↔ False) := by
  cases action with
  | accept => simp [decision, hs, hsel, htb]
  | reject => simp [decision, hs, hsel, htb]
  | counter => exact absurd rfl hact

/-- C5 amended, witnessed: rejecting on the concrete closed auction with one
bid succeeds, keeps it closed and appends one notification. -/
theorem C5_amended_witness :
    (decision ⟨some ⟨1, 10, 100, 5, 0, 1000, 200, .closed⟩, [⟨3, 1, 2, 200, 50⟩], [], []⟩
        10 .accept none 99).1 = .ok ∧
    (decision ⟨some ⟨1, 10, 100, 5, 0, 1000, 200, .closed⟩, [⟨3, 1, 2, 200, 50⟩], [], []⟩
        10 .accept none 99).2.auction = some ⟨1, 10, 100, 5, 0, 1000, 200, .closed⟩ := by
  have h := C5_amended_decision
    ⟨some ⟨1, 10, 100, 5, 0, 1000, 200, .closed⟩, [⟨3, 1, 2, 200, 50⟩], [], []⟩
    ⟨1, 10, 100, 5, 0, 1000, 200, .closed⟩ ⟨3, 1, 2, 200, 50⟩ 10 .accept 99 rfl rfl
    (by decide) (by decide)
  exact ⟨h.1, h.2.1⟩

/-- C6 counterexample: `counterReply` never checks that the counter-offer is
still pending.  A reject reply addressed to an already-accepted counter-offer
succeeds and overwrites its status to rejected instead of failing. -/
theorem C6_counterexample :
    (counterReply ⟨some ⟨1, 10, 100, 5, 0, 1000, 200, .closed⟩, [⟨3, 1, 2, 200, 50⟩],
        [⟨5, 1, 10, 2, 50, .accepted⟩], []⟩ 5 2 false).1 = .ok ∧
    (counterReply ⟨some ⟨1, 10, 100, 5, 0, 1000, 200, .closed⟩, [⟨3, 1, 2, 200, 50⟩],
        [⟨5, 1, 10, 2, 50, .accepted⟩], []⟩ 5 2 false).2.counters =
      [⟨5, 1, 10, 2, 50, .rejected⟩] := by
  decide

/-- C6 amended: `counterReply` succeeds only for the addressed buyer (any
other caller gets Forbidden with the store untouched); an accept sets the
counter-offer to accepted, `currentPrice` to the counter amount and the
auction to closed; a reject sets it to rejected and the auction to closed —
but the prior status of the counter-offer is never consulted, so a second
reply re-resolves (overwrites) an already-resolved counter-offer instead of
failing. -/
theorem C6_amended_counter_reply (s : SupaState) (c : CounterOffer) (a : Auction)
    (counterId userId : Nat) (accept : Bool)
    (hc : s.counters.find? (fun x => x.id == counterId) = some c)
    (hs : s.auction = some a) (hid : a.id = c.auctionId) :
    (c.buyerId ≠ userId → counterReply s counterId userId accept = (.notBuyer, s)) ∧
    (c.buyerId = userId →
      (counterReply s counterId userId accept).1 = .ok ∧
      (counterReply s counterId userId accept).2.auction =
        some { a with currentPrice := if accept then c.amount else a.currentPrice,
                      status := .closed } ∧
      (counterReply s counterId userId accept).2.counters =
        s.counters.map (fun x => if x.id = counterId then
          { x with status := if accept then .accepted else .rejected } else x)) := by
  constructor
  · intro hne
    simp [counterReply, hc, hne]
  · intro hbuyer
    cases accept with
    | true => simp [counterReply, hc, hbuyer, hs, hid]
    | false => simp [counterReply, hc, hbuyer, hs, hid]

/-- C6 amended, witnessed: the addressed buyer accepting a pending counter of
50 marks it accepted and closes the auction at 50. -/
theorem C6_amended_witness :
    (counterReply ⟨some ⟨1, 10, 100, 5, 0, 1000, 200, .ended⟩, [⟨3, 1, 2, 200, 50⟩],
        [⟨5, 1, 10, 2, 50, .pending⟩], []⟩ 5 2 true).1 = .ok ∧
    (counterReply ⟨some ⟨1, 10, 100, 5, 0, 1000, 200, .ended⟩, [⟨3, 1, 2, 200, 50⟩],
        [⟨5, 1, 10, 2, 50, .pending⟩], []⟩ 5 2 true).2.counters =
      [⟨5, 1, 10, 2, 50, .accepted⟩] := by
  have h := (C6_amended_counter_reply
    ⟨some ⟨1, 10, 100, 5, 0, 1000, 200, .ended⟩, [⟨3, 1, 2, 200, 50⟩],
      [⟨5, 1, 10, 2, 50, .pending⟩], []⟩
    ⟨5, 1, 10, 2, 50, .pending⟩ ⟨1, 10, 100, 5, 0, 1000, 200, .ended⟩ 5 2 true
    (by decide) rfl rfl).2 rfl
  exact ⟨h.1, by rw [h.2.2]; decide⟩

/-- Notifications recorded by a fully successful `placeBid`: the seller
`bid:new` notice, then the `bid:outbid` notice chosen from the top two bids by
amount after the insert, then the capped `bid:update` fan-out. -/
theorem supaPlaceBid_success_notifications (s : SupaState) (a : Auction) (now : ℤ)
    (bidderId : Nat) (amount : ℤ) (bidId : Nat) (hs : s.auction = some a)
    (h : ¬(a.status = .closed ∨ now > a.endsAt))
    (hc : a.currentPrice ≤ amount - a.bidIncrement ∧ now < a.endsAt ∧ a.status ≠ .closed) :
    (supaPlaceBid s now bidderId amount bidId false false).2.notifications =
      s.notifications ++ [⟨a.sellerId, .bidNew, some amount⟩] ++
      (match ((sortBidsDesc (s.bids ++ [(⟨bidId, a.id, bidderId, amount, now⟩ : Bid)])).take 2).find?
          (fun b => b.bidderId != bidderId) with
        | some p => [(⟨p.bidderId, .bidOutbid, some amount⟩ : Notification)]
        | none => ([] : List Notification)) ++
      ((uniqueFirst (((s.bids ++ [(⟨bidId, a.id, bidderId, amount, now⟩ : Bid)]).filter
          (fun b => b.bidderId != bidderId)).map Bid.bidderId)).take 100).map
        (fun uid => (⟨uid, .bidUpdate, some amount⟩ : Notification)) := by
  simp only [supaPlaceBid, hs, if_neg h, Bool.false_eq_true, if_false, if_pos hc]
  cases hfind : ((sortBidsDesc (s.bids ++ [(⟨bidId, a.id, bidderId, amount, now⟩ : Bid)])).take 2).find?
      (fun b => b.bidderId != bidderId) <;>
    simp [hfind]

/-- C7 counterexample: the outbid recipient is looked up among only the top
two bids by amount after the new insert.  With prior bids 100 by bidder 3 and
105, 110 by bidder 2, a new accepted bid of 115 by bidder 2 makes the top two
bids both bidder 2's, so no `bid:outbid` notification at all is emitted, even
though bidder 3 — the highest-bidding other bidder — exists. -/
theorem C7_counterexample :
    (supaPlaceBid ⟨some ⟨1, 10, 90, 5, 0, 1000, 110, .live⟩,
        [⟨21, 1, 3, 100, 10⟩, ⟨22, 1, 2, 105, 20⟩, ⟨23, 1, 2, 110, 30⟩], [], []⟩
        900 2 115 24 false false).1 = .success ∧
    (supaPlaceBid ⟨some ⟨1, 10, 90, 5, 0, 1000, 110, .live⟩,
        [⟨21, 1, 3, 100, 10⟩, ⟨22, 1, 2, 105, 20⟩, ⟨23, 1, 2, 110, 30⟩], [], []⟩
        900 2 115 24 false false).2.notifications.filter
      (fun n => n.ntype == .bidOutbid) = [] ∧
    ([⟨21, 1, 3, 100, 10⟩, ⟨22, 1, 2, 105, 20⟩, ⟨23, 1, 2, 110, 30⟩] : List Bid).any
      (fun b => b.bidderId != 2) = true := by
  decide

/-- C7 amended: the Supabase path draws the outbid recipient from only the top
two bids by amount after inserting the new bid, so when every prior bid
belongs to the current bidder no outbid notice is produced; the Sequelize path
consults only the most recently created bid — the bid just inserted — so with
strictly older prior bids it emits no outbid notification at all. -/
theorem C7_amended_outbid (s : SupaState) (a : Auction) (t : SeqState) (r : Auction)
    (now : ℤ) (bidderId : Nat) (amount : ℤ) (bidId : Nat)
    (hs : s.auction = some a) (hall : ∀ b ∈ s.bids, b.bidderId = bidderId)
    (ht : t.auction = some r) (hnr : t.hasRedis = false)
    (hold : ∀ b ∈ t.bids, b.createdAt < now) :
    ((supaPlaceBid s now bidderId amount bidId false false).2.notifications.filter
        (fun n => n.ntype == .bidOutbid) =
      s.notifications.filter (fun n => n.ntype == .bidOutbid)) ∧
    (seqPlaceBid t now bidderId amount bidId).2.notifications = t.notifications := by
  constructor
  · by_cases hend : a.status = .closed ∨ now > a.endsAt
    · rw [supaPlaceBid_ended s a now bidderId amount bidId false false hs hend]
    · by_cases hc : a.currentPrice ≤ amount - a.bidIncrement ∧ now < a.endsAt ∧ a.status ≠ .closed
      · have hnone : ((sortBidsDesc (s.bids ++ [(⟨bidId, a.id, bidderId, amount, now⟩ : Bid)])).take 2).find?
            (fun b => b.bidderId != bidderId) = none := by
          apply List.find?_eq_none.mpr
          intro x hx
          have hx2 : x ∈ s.bids ++ [(⟨bidId, a.id, bidderId, amount, now⟩ : Bid)] :=
            mem_sortBidsDesc.mp (List.take_subset _ _ hx)
          rcases List.mem_append.mp hx2 with h1 | h2
          · simp [hall x h1]
          · simp only [List.mem_singleton] at h2
            subst h2
            simp
        rw [supaPlaceBid_success_notifications s a now bidderId amount bidId hs hend hc, hnone]
        simp [List.filter_append, List.filter_map, Function.comp]
        intro n hn
        rcases List.mem_map.mp (List.take_subset _ _ hn) with ⟨uid, _, huid⟩
        subst huid
        simp
      · rw [supaPlaceBid_reject s a now bidderId amount bidId false hs hend hc]
  · by_cases hend2 : now > r.endsAt
    · rw [seqPlaceBid_noRedis_ended t r now bidderId amount bidId ht hnr hend2]
    · by_cases hlow : amount < r.currentPrice + r.bidIncrement
      · rw [seqPlaceBid_noRedis_tooLow t r now bidderId amount bidId ht hnr hend2 hlow]
      · have hpl : pickLatest (t.bids ++ [(⟨bidId, r.id, bidderId, amount, now⟩ : Bid)]) =
            some ⟨bidId, r.id, bidderId, amount, now⟩ :=
          pickLatest_append_newest t.bids _ hold
        simp only [seqPlaceBid, ht, consultCache_noRedis t _ _ _ hnr]
        simp only [or_self, if_neg hend2, if_neg hlow, hnr, Bool.false_eq_true, if_false]
        simp [hpl, hnr]

/-- C7 amended, witnessed: with the single prior bid owned by the current
bidder (Supabase path) and a strictly older prior bid (Sequelize path), no
outbid notification is added by a successful 115 bid. -/
theorem C7_amended_witness :
    ((supaPlaceBid ⟨some ⟨1, 10, 90, 5, 0, 1000, 110, .live⟩, [⟨23, 1, 2, 110, 30⟩], [], []⟩
        900 2 115 24 false false).2.notifications.filter
      (fun n => n.ntype == .bidOutbid) = []) ∧
    (seqPlaceBid ⟨false, none, some ⟨1, 10, 90, 5, 0, 1000, 110, .live⟩, [⟨21, 1, 3, 100, 10⟩], []⟩
        900 2 115 24).2.notifications = [] := by
  exact C7_amended_outbid
    ⟨some ⟨1, 10, 90, 5, 0, 1000, 110, .live⟩, [⟨23, 1, 2, 110, 30⟩], [], []⟩
    ⟨1, 10, 90, 5, 0, 1000, 110, .live⟩
    ⟨false, none, some ⟨1, 10, 90, 5, 0, 1000, 110, .live⟩, [⟨21, 1, 3, 100, 10⟩], []⟩
    ⟨1, 10, 90, 5, 0, 1000, 110, .live⟩ 900 2 115 24 rfl (by decide) rfl rfl (by decide)

/-- C9: `RedisStore.tryPlaceBid` acquires the per-auction set-if-absent lock
key with a five-second expiry before touching auction state; when the key is
already held the call bails with `locked` and the whole state — auction
included — is untouched; on every other path the lock key has been deleted in
the final state; the auction hash is modified only on the successful path,
and there only by raising `currentPrice` to the strictly larger bid amount. -/
theorem C9_lock_discipline (s : RedisState) (now : ℤ) (amount : ℤ) :
    (s.lockHeld = true → tryPlaceBid s now amount = (.locked, s)) ∧
    (s.lockHeld = false →
      lockAcquire s = some { s with lockHeld := true, lockTtl := some 5 } ∧
      (tryPlaceBid s now amount).2.lockHeld = false ∧
      (tryPlaceBid s now amount).2.lockTtl = none) ∧
    ((tryPlaceBid s now amount).1 ≠ .ok →
      (tryPlaceBid s now amount).2.auction = s.auction) ∧
    ((tryPlaceBid s now amount).1 = .ok →
      ∃ r : RedisAuction, s.auction = some r ∧ r.currentPrice < amount ∧
        (tryPlaceBid s now amount).2.auction = some { r with currentPrice := amount }) := by
  by_cases hl : s.lockHeld = true
  · have hrun : tryPlaceBid s now amount = (.locked, s) := by
      simp [tryPlaceBid, lockAcquire, hl]
    refine ⟨fun _ => hrun, fun hf => absurd hl (by simp [hf]), fun _ => by rw [hrun], fun h => ?_⟩
    rw [hrun] at h
    simp at h
  · have hl2 : s.lockHeld = false := by simpa using hl
    rcases ha : s.auction with _ | r
    · refine ⟨fun ht => absurd ht hl, fun _ => ⟨by simp [lockAcquire, hl2, ha], ?_, ?_⟩, ?_, ?_⟩
      · simp [tryPlaceBid, lockAcquire, lockRelease, hl2, ha]
      · simp [tryPlaceBid, lockAcquire, lockRelease, hl2, ha]
      · intro _
        simp [tryPlaceBid, lockAcquire, lockRelease, hl2, ha]
      · intro h
        simp [tryPlaceBid, lockAcquire, lockRelease, hl2, ha] at h
    · by_cases hend : now > r.endsAt
      · refine ⟨fun ht => absurd ht hl, fun _ => ⟨by simp [lockAcquire, hl2, ha], ?_, ?_⟩, ?_, ?_⟩
        · simp [tryPlaceBid, lockAcquire, lockRelease, hl2, ha, hend]
        · simp [tryPlaceBid, lockAcquire, lockRelease, hl2, ha, hend]
        · intro _
          simp [tryPlaceBid, lockAcquire, lockRelease, hl2, ha, hend]
        · intro h
          simp [tryPlaceBid, lockAcquire, lockRelease, hl2, ha, hend] at h
      · by_cases hlow : amount ≤ r.currentPrice
        · refine ⟨fun ht => absurd ht hl, fun _ => ⟨by simp [lockAcquire, hl2, ha], ?_, ?_⟩, ?_, ?_⟩
          · simp [tryPlaceBid, lockAcquire, lockRelease, hl2, ha, hend, hlow]
          · simp [tryPlaceBid, lockAcquire, lockRelease, hl2, ha, hend, hlow]
          · intro _
            simp [tryPlaceBid, lockAcquire, lockRelease, hl2, ha, hend, hlow]
          · intro h
            simp [tryPlaceBid, lockAcquire, lockRelease, hl2, ha, hend, hlow] at h
        · refine ⟨fun ht => absurd ht hl, fun _ => ⟨by simp [lockAcquire, hl2, ha], ?_, ?_⟩, ?_, ?_⟩
          · simp [tryPlaceBid, lockAcquire, lockRelease, hl2, ha, hend, hlow]
          · simp [tryPlaceBid, lockAcquire, lockRelease, hl2, ha, hend, hlow]
          · intro h
            simp [tryPlaceBid, lockAcquire, lockRelease, hl2, ha, hend, hlow] at h
          · intro _
            exact ⟨r, rfl, by omega,
              by simp [tryPlaceBid, lockAcquire, lockRelease, hl2, ha, hend, hlow]⟩

/-- C9 witnessed on concrete states: a held lock bails out with everything
unchanged; an uncontended successful bid leaves the lock key deleted and the
price raised. -/
theorem C9_lock_discipline_witness :
    tryPlaceBid ⟨true, some 3, some ⟨100, 150, 1000⟩⟩ 900 160 =
      (.locked, ⟨true, some 3, some ⟨100, 150, 1000⟩⟩) ∧
    (tryPlaceBid ⟨false, none, some ⟨100, 150, 1000⟩⟩ 900 160).2.lockHeld = false ∧
    (tryPlaceBid ⟨false, none, some ⟨100, 150, 1000⟩⟩ 900 160).2.lockTtl = none := by
  refine ⟨(C9_lock_discipline ⟨true, some 3, some ⟨100, 150, 1000⟩⟩ 900 160).1 rfl, ?_, ?_⟩
  · exact ((C9_lock_discipline ⟨false, none, some ⟨100, 150, 1000⟩⟩ 900 160).2.1 rfl).2.1
  · exact ((C9_lock_discipline ⟨false, none, some ⟨100, 150, 1000⟩⟩ 900 160).2.1 rfl).2.2

/-- A decision leaves the auction row untouched or sets its status to closed;
it never writes any other status. -/
theorem decision_auction_cases (s : SupaState) (a : Auction) (sellerId : Nat)
    (action : DecisionAction) (amount : Option ℤ) (counterId : Nat) (hs : s.auction = some a) :
    (decision s sellerId action amount counterId).2.auction = some a ∨
    (decision s sellerId action amount counterId).2.auction = some { a with status := .closed } := by
  by_cases hsel : a.sellerId ≠ sellerId
  · simp [decision, hs, hsel]
  · cases htb : topBid s.bids with
    | none => simp [decision, hs, hsel, htb]
    | some tb =>
      cases action with
      | accept => simp [decision, hs, hsel, htb]
      | reject => simp [decision, hs, hsel, htb]
      | counter =>
        cases amount with
        | none => simp [decision, hs, hsel, htb]
        | some amt =>
          by_cases h0 : amt = 0 <;> simp [decision, hs, hsel, htb, h0]

/-- A counter reply leaves the auction row untouched or closes it (on accept
also writing the counter amount as the price); it never writes any other
status. -/
theorem counterReply_auction_cases (s : SupaState) (counterId userId : Nat) (accept : Bool) :
    (counterReply s counterId userId accept).2.auction = s.auction ∨
    ∀ a2 : Auction, (counterReply s counterId userId accept).2.auction = some a2 →
      a2.status = .closed := by
  cases hc : s.counters.find? (fun c => c.id == counterId) with
  | none => exact Or.inl (by simp [counterReply, hc])
  | some c =>
    by_cases hb : c.buyerId ≠ userId
    · exact Or.inl (by simp [counterReply, hc, hb])
    · cases ha : s.auction with
      | none => exact Or.inl (by simp [counterReply, hc, hb, ha])
      | some a =>
        by_cases hid : a.id ≠ c.auctionId
        · exact Or.inl (by simp [counterReply, hc, hb, ha, hid])
        · cases accept with
          | true =>
            refine Or.inr fun a2 h2 => ?_
            simp [counterReply, hc, hb, ha, hid] at h2
            rw [← h2]
          | false =>
            refine Or.inr fun a2 h2 => ?_
            simp [counterReply, hc, hb, ha, hid] at h2
            rw [← h2]

/-- C10 counterexample: in the compiled server bundle the expiry sweep is
guarded only by the presence of the Sequelize store, so with Sequelize
configured and Supabase REST mode enabled the sweep is still installed —
the claim requires it not to be. -/
theorem C10_counterexample : part000SweepInstalled true true = true := by
  decide

/-- C10 amended: the TypeScript entry point does not install the sweep in
Supabase REST mode (`sequelize && !USE_SUPABASE_REST`), and no Supabase REST
repository operation ever moves an auction into the `ended` status except the
explicit seller `endAuction` call — in particular no background transition to
`ended` exists for document-store auctions. -/
theorem C10_amended_sweep (op : SupaOp) (s : SupaState) (a a2 : Auction)
    (hs : s.auction = some a) (hne : a.status ≠ .ended)
    (h2 : (applyOp op s).auction = some a2) (he : a2.status = .ended) :
    (∃ sellerId, op = .endAuctionOp sellerId) ∧ indexSweepInstalled true true = false := by
  refine ⟨?_, rfl⟩
  cases op with
  | placeBidOp now bidderId amount bidId updF insF =>
    exfalso
    rcases supaPlaceBid_auction_cases s a now bidderId amount bidId updF insF hs with hcase | ⟨hcase, _⟩
    · simp only [applyOp] at h2
      rw [hcase] at h2
      cases h2
      exact hne he
    · simp only [applyOp] at h2
      rw [hcase] at h2
      cases h2
      exact hne he
  | endAuctionOp sellerId => exact ⟨sellerId, rfl⟩
  | decisionOp sellerId action amount counterId =>
    exfalso
    rcases decision_auction_cases s a sellerId action amount counterId hs with hcase | hcase
    · simp only [applyOp] at h2
      rw [hcase] at h2
      cases h2
      exact hne he
    · simp only [applyOp] at h2
      rw [hcase] at h2
      cases h2
      simp at he
  | counterReplyOp counterId userId accept =>
    exfalso
    rcases counterReply_auction_cases s counterId userId accept with hcase | hcase
    · simp only [applyOp] at h2
      rw [hcase, hs] at h2
      cases h2
      exact hne he
    · simp only [applyOp] at h2
      have := hcase a2 h2
      rw [this] at he
      exact absurd he (by decide)
  | startOp now minutes =>
    exfalso
    simp only [applyOp, startAuction, hs] at h2
    cases h2
    simp at he
  | resetOp now minutes =>
    exfalso
    simp only [applyOp, resetAuction, hs] at h2
    cases h2
    simp at he

/-- C10 amended, witnessed: the explicit `endAuction` by seller 1 is the
(only) operation that takes the concrete live auction to `ended`. -/
theorem C10_amended_witness :
    (∃ sellerId, SupaOp.endAuctionOp 1 = SupaOp.endAuctionOp sellerId) ∧
    indexSweepInstalled true true = false := by
  exact C10_amended_sweep (.endAuctionOp 1)
    ⟨some ⟨1, 1, 100, 5, 0, 1000, 100, .live⟩, [], [], []⟩
    ⟨1, 1, 100, 5, 0, 1000, 100, .live⟩ ⟨1, 1, 100, 5, 0, 1000, 100, .ended⟩
    rfl (by decide) (by decide) rfl
